import Mathlib

/-!
Verification development for the CPU dashboard ingestion-and-classification
pipeline (`cpu_dashboard.py`).  The Python functions `extract_vm_info`,
`generate_color_map`, `generate_color_map_single_ne`, `load_data` and the
trend aggregation (`df_trend`) are shallowly embedded as executable Lean
definitions.  Python string primitives (`strip`, `upper`, `split`, substring
containment, lexicographic comparison) are given structural-recursive
embeddings on `List Char`; the floating-point arithmetic of
`colorsys.hls_to_rgb` is modelled by exact rational arithmetic on explicit
fractions (every numeric literal of the source is a decimal, represented
exactly); pandas tables are lists of rows.
-/

namespace CpuDashboard

/-! ### String primitives -/

/-- Containment of the character list `pat` as a contiguous sublist of the
second argument; embeds Python's `pat in s` substring test (for nonempty
`pat`). -/
def containsList (pat : List Char) : List Char → Bool
  | [] => pat.isEmpty
  | c :: rest => pat.isPrefixOf (c :: rest) || containsList pat rest

/-- Substring containment on strings (Python `pat in s`, nonempty `pat`). -/
def hasSubstr (s pat : String) : Bool :=
  containsList pat.data s.data

/-- Python `str.strip()`: remove leading and trailing whitespace. -/
def pyStrip (s : String) : String :=
  String.mk (((s.data.dropWhile Char.isWhitespace).reverse.dropWhile
    Char.isWhitespace).reverse)

/-- Python `str.upper()` (ASCII letters, the only ones arising here). -/
def pyUpper (s : String) : String :=
  String.mk (s.data.map Char.toUpper)

/-- Worker for `pySplit`: scan left to right, cutting at each occurrence of
the (nonempty) separator.  `fuel` bounds the recursion; every call consumes
at least one character per fuel unit, so `fuel = length of the input` is
exact and the `fuel = 0` fallback is unreachable. -/
def pySplitAux (sep : List Char) : Nat → List Char → List Char → List (List Char)
  | _, [], acc => [acc.reverse]
  | 0, s, acc => [acc.reverse ++ s]
  | fuel + 1, c :: rest, acc =>
    if sep.isPrefixOf (c :: rest) then
      acc.reverse :: pySplitAux sep fuel (List.drop (sep.length - 1) rest) []
    else
      pySplitAux sep fuel rest (c :: acc)

/-- Python `s.split(sep)` for a nonempty separator. -/
def pySplit (s sep : String) : List String :=
  (pySplitAux sep.data s.data.length s.data []).map String.mk

/-- Strict lexicographic comparison of character lists by code point,
Python's string `<`. -/
def listLtB : List Char → List Char → Bool
  | [], [] => false
  | [], _ :: _ => true
  | _ :: _, [] => false
  | a :: as, b :: bs =>
    if a.toNat < b.toNat then true
    else if b.toNat < a.toNat then false
    else listLtB as bs

/-- Python's string `<` (code-point lexicographic order). -/
def strLt (a b : String) : Prop := listLtB a.data b.data = true

instance : DecidableRel strLt := fun a b => by
  unfold strLt; infer_instance

/-- Reflexive closure of `strLt`: the order `sorted` sorts by. -/
def strLe (a b : String) : Prop := strLt a b ∨ a = b

instance : DecidableRel strLe := fun a b => by
  unfold strLe; infer_instance

/-! ### Exact rational fractions

Python float arithmetic on the decimal literals of the source is modelled
by exact fractions `num / den` (denominators positive in every computation
the source performs; fractions are not reduced, which no observable output
depends on). -/

/-- An exact fraction `num / den`. -/
structure MyRat where
  num : Int
  den : Nat
deriving DecidableEq, Repr

/-- Fraction addition. -/
def ratAdd (a b : MyRat) : MyRat :=
  ⟨a.num * b.den + b.num * a.den, a.den * b.den⟩

/-- Fraction subtraction. -/
def ratSub (a b : MyRat) : MyRat :=
  ⟨a.num * b.den - b.num * a.den, a.den * b.den⟩

/-- Fraction multiplication. -/
def ratMul (a b : MyRat) : MyRat :=
  ⟨a.num * b.num, a.den * b.den⟩

/-- Fraction reciprocal (sign moved into the numerator). -/
def ratInv (b : MyRat) : MyRat :=
  if b.num < 0 then ⟨-(b.den : Int), (-b.num).toNat⟩ else ⟨b.den, b.num.toNat⟩

/-- Fraction division. -/
def ratDiv (a b : MyRat) : MyRat := ratMul a (ratInv b)

/-- Value comparison `a < b` (cross multiplication; denominators are
positive in every comparison the source performs). -/
def ratLt (a b : MyRat) : Prop := a.num * b.den < b.num * a.den

instance : DecidableRel ratLt := fun a b => by
  unfold ratLt; infer_instance

/-- Value comparison `a ≤ b`. -/
def ratLe (a b : MyRat) : Prop := a.num * b.den ≤ b.num * a.den

instance : DecidableRel ratLe := fun a b => by
  unfold ratLe; infer_instance

/-- Value equality test (Python `==` on floats). -/
def ratEqB (a b : MyRat) : Bool := a.num * b.den == b.num * a.den

/-- Mathematical floor of a fraction (denominator positive). -/
def ratFloor (a : MyRat) : Int := Int.fdiv a.num a.den

/-- Python's `int()`: truncation toward zero. -/
def pyInt (a : MyRat) : Int := Int.tdiv a.num a.den

/-! ### Descriptor parser (`extract_vm_info`) -/

/-- Characters allowed in the value of the regex `VM Name=([^,\x22]+)`:
anything except a comma or a double quote. -/
def validChar (c : Char) : Bool :=
  !(c == ',') && !(c == '"')

/-- Embedding of `re.search(r"VM Name=([^,\x22]+)", s)`: scan positions left
to right; at the first position where the literal `VM Name=` is followed by a
nonempty run of characters that are not commas or double quotes, return that
maximal run (the capture group).  Otherwise continue at the next position. -/
def findVMName : List Char → Option (List Char)
  | [] => none
  | c :: rest =>
    if ("VM Name=".data).isPrefixOf (c :: rest) then
      let run := ((c :: rest).drop ("VM Name=".data.length)).takeWhile validChar
      if run.isEmpty then findVMName rest else some run
    else findVMName rest

/-- Uppercase-ASCII test used by the fallback regex `^([A-Z]+)`. -/
def isUpperAZ (c : Char) : Bool :=
  decide ('A' ≤ c) && decide (c ≤ 'Z')

/-- Leading run of uppercase ASCII letters of `s`: the capture of
`re.search(r"^([A-Z]+)", s)`, empty when the regex does not match. -/
def leadingUpper (s : String) : String :=
  String.mk (s.data.takeWhile isUpperAZ)

/-- The ordered substring rule table of the legacy classifier, in the exact
order of the `if`/`elif` chain of the source. -/
def ruleTable : List String :=
  ["IPU_A", "IPU_B_ARM", "IPU_B", "ISU_ARM", "ISU_C48", "SDU_A_ARM",
   "SDU_A", "SPU_CGW", "SPU_B", "SPU_C", "SPU_K1", "SPU_O", "SPU_P",
   "SPU_J_ARM", "SPU_J", "SPU_M_ARM", "SPU_M", "SPU_G", "OMU"]

/-- The `if`/`elif` chain of the legacy classifier; the parameter `u` is
the local variable `vm_name_upper` of the source, and the fallback regex
runs on the original `vm_name`. -/
def classifyUpper (vm_name u : String) : String :=
  if hasSubstr u "IPU_A" then "IPU_A"
  else if hasSubstr u "IPU_B_ARM" then "IPU_B_ARM"
  else if hasSubstr u "IPU_B" then "IPU_B"
  else if hasSubstr u "ISU_ARM" then "ISU_ARM"
  else if hasSubstr u "ISU_C48" then "ISU_C48"
  else if hasSubstr u "SDU_A_ARM" then "SDU_A_ARM"
  else if hasSubstr u "SDU_A" then "SDU_A"
  else if hasSubstr u "SPU_CGW" then "SPU_CGW"
  else if hasSubstr u "SPU_B" then "SPU_B"
  else if hasSubstr u "SPU_C" then "SPU_C"
  else if hasSubstr u "SPU_K1" then "SPU_K1"
  else if hasSubstr u "SPU_O" then "SPU_O"
  else if hasSubstr u "SPU_P" then "SPU_P"
  else if hasSubstr u "SPU_J_ARM" then "SPU_J_ARM"
  else if hasSubstr u "SPU_J" then "SPU_J"
  else if hasSubstr u "SPU_M_ARM" then "SPU_M_ARM"
  else if hasSubstr u "SPU_M" then "SPU_M"
  else if hasSubstr u "SPU_G" then "SPU_G"
  else if hasSubstr u "OMU" then "OMU"
  else
    let run := leadingUpper vm_name
    if run.isEmpty then "UNKNOWN" else run

/-- Legacy `vm_type` classification: the literal `if`/`elif` chain of the
source, testing the uppercased name against each rule substring in order,
with the `^([A-Z]+)` fallback on the original (non-uppercased) name. -/
def classifyType (vm_name : String) : String :=
  classifyUpper vm_name (pyUpper vm_name)

/-- First-match-wins search of an ordered rule list: the first rule whose
substring occurs in `upper` wins. -/
def firstMatch (upper : String) : List String → Option String
  | [] => none
  | r :: rest => if hasSubstr upper r then some r else firstMatch upper rest

/-- First-match-wins lookup in the ordered rule table, phrased as the spec
phrases it (an ordered table searched for the first rule whose substring
occurs in the uppercased name). -/
def tableMatch (upper : String) : Option String :=
  firstMatch upper ruleTable

/-- The legacy classifier as the spec describes it: first matching rule of
the ordered table on the uppercased name, else the leading uppercase run of
the original name, else `UNKNOWN`. -/
def classifyTypeTable (vm_name : String) : String :=
  match tableMatch (pyUpper vm_name) with
  | some t => t
  | none =>
    let run := leadingUpper vm_name
    if run.isEmpty then "UNKNOWN" else run

/-- Trigger substring of the new descriptor grammar. -/
def NEW_TRIGGER : String := "Virtual machine name="

/-- Legacy-grammar `vm_name` extraction: the regex capture when the pattern
matches, else the whole (already stripped) descriptor. -/
def legacyName (vm_str : String) : String :=
  match findVMName vm_str.data with
  | some run => pyStrip (String.mk run)
  | none => vm_str

/-- Text after the new-grammar trigger, stripped
(`s.split("Virtual machine name=")[1].strip()`). -/
def newFullName (vm_str : String) : String :=
  pyStrip ((pySplit vm_str NEW_TRIGGER).getD 1 "")

/-- Underscore tokens of the new-grammar full name. -/
def newParts (vm_str : String) : List String :=
  pySplit (newFullName vm_str) "_"

/-- Embedding of `extract_vm_info`.  A missing (`NaN`) descriptor is `none`
and yields `(none, none)`.  The new grammar fires when the trigger substring
is present: the text after the trigger is split on `_`; with more than one
token the first token is dropped for `vm_name` and additionally the last for
`vm_type` (when more than two tokens exist, else `vm_type` is `vm_name`);
with at most one token the full name is kept and the type is `UNKNOWN`.
(The source wraps this branch in `try`/`except`, but no step of it can
raise, so the `except` arm is dead and not modelled.)  Otherwise the legacy
grammar applies: regex name extraction, then the ordered rule table. -/
def extract_vm_info (vm_str? : Option String) : Option String × Option String :=
  match vm_str? with
  | none => (none, none)
  | some s =>
    let vm_str := pyStrip s
    if hasSubstr vm_str NEW_TRIGGER then
      let full_vm_name := newFullName vm_str
      let parts := newParts vm_str
      if parts.length > 1 then
        let vm_name := String.intercalate "_" (parts.drop 1)
        let vm_type :=
          if parts.length > 2 then String.intercalate "_" ((parts.drop 1).dropLast)
          else vm_name
        (some vm_name, some vm_type)
      else
        (some full_vm_name, some "UNKNOWN")
    else
      let vm_name := legacyName vm_str
      (some vm_name, some (classifyType vm_name))

/-! ### Color assignment (`generate_color_map`, `generate_color_map_single_ne`) -/

/-- The fixed 10-value hue palette of the source
(`0.00, 0.10, ..., 0.90`). -/
def FIXED_HUES : List MyRat :=
  [⟨0, 10⟩, ⟨1, 10⟩, ⟨2, 10⟩, ⟨3, 10⟩, ⟨4, 10⟩,
   ⟨5, 10⟩, ⟨6, 10⟩, ⟨7, 10⟩, ⟨8, 10⟩, ⟨9, 10⟩]

/-- Python's `hue % 1.0` (floor modulus). -/
def wrap1 (x : MyRat) : MyRat := ratSub x ⟨ratFloor x, 1⟩

/-- The helper `_v` of `colorsys.hls_to_rgb`. -/
def hlsV (m1 m2 hue : MyRat) : MyRat :=
  let h := wrap1 hue
  if ratLt h ⟨1, 6⟩ then ratAdd m1 (ratMul (ratMul (ratSub m2 m1) h) ⟨6, 1⟩)
  else if ratLt h ⟨1, 2⟩ then m2
  else if ratLt h ⟨2, 3⟩ then
    ratAdd m1 (ratMul (ratMul (ratSub m2 m1) (ratSub ⟨2, 3⟩ h)) ⟨6, 1⟩)
  else m1

/-- Embedding of `colorsys.hls_to_rgb`. -/
def hls_to_rgb (h l s : MyRat) : MyRat × MyRat × MyRat :=
  if ratEqB s ⟨0, 1⟩ then (l, l, l)
  else
    let m2 := if ratLe l ⟨1, 2⟩ then ratMul l (ratAdd ⟨1, 1⟩ s)
              else ratSub (ratAdd l s) (ratMul l s)
    let m1 := ratSub (ratMul ⟨2, 1⟩ l) m2
    (hlsV m1 m2 (ratAdd h ⟨1, 3⟩), hlsV m1 m2 h, hlsV m1 m2 (ratSub h ⟨1, 3⟩))

/-- One color channel: `int(component * 255)` (components are in `[0, 1]`
for every input the source produces, so no clamping occurs). -/
def chan (x : MyRat) : Nat := (pyInt (ratMul x ⟨255, 1⟩)).toNat

/-- Lowercase hexadecimal digit. -/
def hexDigit (n : Nat) : Char :=
  if n < 10 then Char.ofNat (48 + n) else Char.ofNat (87 + n)

/-- Python's format spec `02x` for values up to 255 (every channel here). -/
def hex2 (n : Nat) : String :=
  String.mk [hexDigit (n / 16), hexDigit (n % 16)]

/-- The f-string building `#rrggbb` from an RGB triple. -/
def colorHex (rgb : MyRat × MyRat × MyRat) : String :=
  "#" ++ hex2 (chan rgb.1) ++ hex2 (chan rgb.2.1) ++ hex2 (chan rgb.2.2)

/-- Embedding of `sorted(series.unique())`: first-occurrence deduplication
followed by code-point lexicographic sorting. -/
def sortedUnique (l : List String) : List String :=
  List.insertionSort strLe l.dedup

/-- Sorted distinct `NE Name` values of the frame (rows are modelled as
(`NE Name`, `VM_Type`) pairs; no other column affects the color map). -/
def neNamesOf (df : List (String × String)) : List String :=
  sortedUnique (df.map Prod.fst)

/-- Sorted distinct `VM_Type` values of the rows whose `NE Name` is `ne`. -/
def childrenOf (df : List (String × String)) (ne : String) : List String :=
  sortedUnique ((df.filter (fun p => p.1 == ne)).map Prod.snd)

/-- Python dict assignment `m[k] = v`: replace in place when the key exists,
else append. -/
def dictInsert (m : List (String × String)) (k v : String) : List (String × String) :=
  if m.any (fun p => p.1 == k) then
    m.map (fun p => if p.1 = k then (k, v) else p)
  else m ++ [(k, v)]

/-- Color of child `j` among `k` sorted children of a parent at `base_hue`:
`saturation = 0.70 + (j / max(k-1,1)) * 0.30` and
`lightness = 0.70 - (j / max(k-1,1)) * 0.20`, converted by
`hls_to_rgb(base_hue, lightness, saturation)` and formatted as hex. -/
def childColor (k : Nat) (base_hue : MyRat) (j : Nat) : String :=
  let frac : MyRat := ⟨j, max (k - 1) 1⟩
  let saturation := ratAdd ⟨7, 10⟩ (ratMul frac ⟨3, 10⟩)
  let lightness := ratSub ⟨7, 10⟩ (ratMul frac ⟨2, 10⟩)
  colorHex (hls_to_rgb base_hue lightness saturation)

/-- Inner loop of `generate_color_map`: colors for the sorted children of
one parent at its base hue, written into the accumulated map.  The legend
key is the child (`vm_type`) alone, exactly as in the source. -/
def assignNe (children : List String) (base_hue : MyRat)
    (cm : List (String × String)) : List (String × String) :=
  children.enum.foldl
    (fun m jc => dictInsert m jc.2 (childColor children.length base_hue jc.1)) cm

/-- Embedding of `generate_color_map`: parents sorted, parent `i` gets hue
`FIXED_HUES[i % 10]`, children sorted per parent and colored by the
saturation/lightness ramp.  (The source precomputes the `ne_hues` dict and
looks it up in a second loop over the same sorted list; since the list has
no duplicates this equals computing the hue from the enumeration index.) -/
def generate_color_map (df : List (String × String)) : List (String × String) :=
  (neNamesOf df).enum.foldl
    (fun cm ine =>
      assignNe (childrenOf df ine.2)
        (FIXED_HUES.getD (ine.1 % FIXED_HUES.length) ⟨0, 1⟩) cm) []

/-- Embedding of `generate_color_map_single_ne`: sorted `VM_Type` values of
the selected `NE Name`, child `i` at hue `FIXED_HUES[i % 10]` with fixed
saturation `0.85` and lightness `0.60`. -/
def generate_color_map_single_ne (df : List (String × String)) (ne_name : String) :
    List (String × String) :=
  (childrenOf df ne_name).enum.foldl
    (fun cm ivm =>
      dictInsert cm ivm.2
        (colorHex (hls_to_rgb (FIXED_HUES.getD (ivm.1 % FIXED_HUES.length) ⟨0, 1⟩)
          ⟨60, 100⟩ ⟨85, 100⟩))) []

/-- Key lookup in an association-list dictionary. -/
def lookupKey (k : String) : List (String × String) → Option String
  | [] => none
  | p :: rest => if p.1 = k then some p.2 else lookupKey k rest

/-! ### Schema detection and loading (`load_data`)

The file content is a list of text lines (Python `content.split('\n')`).
`pd.read_csv` is modelled for plain unquoted CSV input: the first
non-skipped line is the header, subsequent non-blank lines are rows split
on commas, and an empty field reads as missing (`NaN`, here `none`).  The
permissive parsers `pd.to_datetime(..., errors='coerce')` and
`pd.to_numeric(..., errors='coerce')` are parameters returning `none` for
unparsable text; timestamps are minutes since the epoch. -/

/-- Header detection predicate: the line contains both marker tokens. -/
def isHeaderLine (line : String) : Bool :=
  hasSubstr line "Start Time" && hasSubstr line "NE Name"

/-- Index of the first line satisfying `isHeaderLine` (the source's
`enumerate` loop with `break`). -/
def findHeaderIdx : List String → Option Nat
  | [] => none
  | l :: rest =>
    if isHeaderLine l then some 0 else (findHeaderIdx rest).map (· + 1)

/-- The `header_row` computation of `load_data`: scan only the first 50
lines; when no line matches, the initial value `0` is kept. -/
def headerRow (lines : List String) : Nat :=
  (findHeaderIdx (lines.take 50)).getD 0

/-- A parsed CSV table. -/
structure Table where
  columns : List String
  rows : List (List String)

/-- Model of `pd.read_csv(file, skiprows=n)` on unquoted CSV text. -/
def read_csv (lines : List String) (skiprows : Nat) : Table :=
  match lines.drop skiprows with
  | [] => { columns := [], rows := [] }
  | h :: rest =>
    { columns := pySplit h ","
      rows := (rest.filter (fun l => !(l == ""))).map (fun l => pySplit l ",") }

/-- Cell access `df[c]` for one row: `none` when the column is absent, the
row is too short, or the field is empty (pandas `NaN`). -/
def getCell (cols : List String) (row : List String) (c : String) : Option String :=
  match cols.indexOf? c with
  | none => none
  | some i =>
    match row.get? i with
    | none => none
    | some v => if v == "" then none else some v

/-- CPU source-column resolution of `load_data`, in the fixed priority
order of the source: new-schema marker first, then old-schema marker. -/
def resolveCpu (cols : List String) : Option String :=
  if cols.contains "Maximum CPU Load (%)" then some "Mean CPU Load (%)"
  else if cols.contains "CPU max usage (%)" then some "CPU average usage (%)"
  else none

/-- One row after per-row processing, before the `dropna`. -/
structure ParsedRow where
  date : Option Nat
  ne : Option String
  vm_name : Option String
  vm_type : Option String
  cpu : Option MyRat
deriving DecidableEq, Repr

/-- Failure conditions of `load_data` (each is a `None` return in the
source; `CaughtException` stands for the caught `KeyError` when the
resolved CPU value column is itself absent). -/
inductive LoadError where
  | MissingColumns
  | UnknownCpuColumn
  | CaughtException
deriving DecidableEq, Repr

/-- Per-row processing: permissive date parse of `Start Time`, descriptor
classification of `VM`, numeric coercion of the resolved CPU column. -/
def parseRow (parseDate : String → Option Nat) (toNumeric : String → Option MyRat)
    (cols : List String) (src : String) (row : List String) : ParsedRow :=
  let vm := extract_vm_info (getCell cols row "VM")
  { date := (getCell cols row "Start Time").bind parseDate
    ne := getCell cols row "NE Name"
    vm_name := vm.1
    vm_type := vm.2
    cpu := (getCell cols row src).bind toNumeric }

/-- The `dropna(subset=["Date", "CPU_Usage", "VM_Name"])` predicate: a row
is kept exactly when timestamp, CPU value and VM name are all non-null. -/
def keepRow (r : ParsedRow) : Bool :=
  r.date.isSome && r.cpu.isSome && r.vm_name.isSome

/-- The minimum required base columns validated by `load_data`. -/
def requiredCols : List String := ["Start Time", "NE Name", "VM"]

/-- Stripped column names of the table `load_data` reads. -/
def loadCols (lines : List String) : List String :=
  (read_csv lines (headerRow lines)).columns.map pyStrip

/-- The rows of the table `load_data` reads, after per-row processing with
CPU source column `src` and before the `dropna`. -/
def parsedRows (parseDate : String → Option Nat) (toNumeric : String → Option MyRat)
    (lines : List String) (src : String) : List ParsedRow :=
  (read_csv lines (headerRow lines)).rows.map
    (parseRow parseDate toNumeric (loadCols lines) src)

/-- Embedding of `load_data`: locate the header in the 50-line window,
parse from it, strip column names, validate required columns, resolve the
CPU source column by presence priority, process the rows and drop the
invalid ones. -/
def load_data (parseDate : String → Option Nat) (toNumeric : String → Option MyRat)
    (lines : List String) : Except LoadError (List ParsedRow) :=
  let cols := loadCols lines
  if requiredCols.all (fun c => cols.contains c) then
    match resolveCpu cols with
    | some src =>
      if cols.contains src then
        Except.ok ((parsedRows parseDate toNumeric lines src).filter keepRow)
      else Except.error LoadError.CaughtException
    | none => Except.error LoadError.UnknownCpuColumn
  else Except.error LoadError.MissingColumns

/-! ### Aggregation (`df_trend`)

Timestamps are modelled as minutes since the epoch (midnight-aligned), so
`dt.floor("2H")` is rounding down to a multiple of 120 minutes.  The
`groupby(...).mean()` sorts by the full group key (pandas default); the
final `sort_values(["VM_Name", "Date"])` is modelled as a stable sort (the
order among rows equal in both sort fields is not specified by pandas). -/

/-- A normalized, already-filtered record entering aggregation. -/
structure Rec where
  date : Nat
  ne : String
  vm_name : String
  vm_type : String
  cpu : MyRat
deriving DecidableEq, Repr

/-- A `(time bucket, ne_name, vm_name, vm_type)` group key. -/
structure TrendKey where
  date : Nat
  ne : String
  vm_name : String
  vm_type : String
deriving DecidableEq, Repr

/-- `dt.floor("2H")` on minutes since the epoch. -/
def floor2h (t : Nat) : Nat := t - t % 120

/-- Group key of a record, with the timestamp floored to its bucket. -/
def keyOf (r : Rec) : TrendKey :=
  { date := floor2h r.date, ne := r.ne, vm_name := r.vm_name, vm_type := r.vm_type }

/-- Sum of a list of fractions. -/
def listSum : List MyRat → MyRat
  | [] => ⟨0, 1⟩
  | c :: rest => ratAdd c (listSum rest)

/-- Arithmetic mean of a list of fractions. -/
def listMean (l : List MyRat) : MyRat := ratDiv (listSum l) ⟨l.length, 1⟩

/-- Lexicographic order on group keys (pandas sorts group keys). -/
def keyLe (a b : TrendKey) : Prop :=
  a.date < b.date ∨ (a.date = b.date ∧ (strLt a.ne b.ne ∨ (a.ne = b.ne ∧
    (strLt a.vm_name b.vm_name ∨ (a.vm_name = b.vm_name ∧
      strLe a.vm_type b.vm_type)))))

instance : DecidableRel keyLe := fun a b => by
  unfold keyLe; infer_instance

/-- The distinct group keys, in the sorted order `groupby` produces. -/
def groupKeys (rs : List Rec) : List TrendKey :=
  List.insertionSort keyLe (rs.map keyOf).dedup

/-- The `sort_values(["VM_Name", "Date"])` order on aggregated rows. -/
def trendLe (a b : TrendKey × MyRat) : Prop :=
  strLt a.1.vm_name b.1.vm_name ∨ (a.1.vm_name = b.1.vm_name ∧ a.1.date ≤ b.1.date)

instance : DecidableRel trendLe := fun a b => by
  unfold trendLe; infer_instance

/-- Embedding of the trend aggregation: floor timestamps to 2-hour buckets,
mean of `cpu_usage` per distinct group key, rows sorted by
(`vm_name`, bucket time). -/
def df_trend (rs : List Rec) : List (TrendKey × MyRat) :=
  List.insertionSort trendLe
    ((groupKeys rs).map (fun k =>
      (k, listMean ((rs.filter (fun r => keyOf r == k)).map Rec.cpu))))

instance : DecidableEq (Except LoadError (List ParsedRow)) := fun a b =>
  match a, b with
  | Except.ok x, Except.ok y =>
    if h : x = y then isTrue (by rw [h])
    else isFalse (fun c => h (by cases c; rfl))
  | Except.error x, Except.error y =>
    if h : x = y then isTrue (by rw [h])
    else isFalse (fun c => h (by cases c; rfl))
  | Except.ok _, Except.error _ => isFalse (fun c => by cases c)
  | Except.error _, Except.ok _ => isFalse (fun c => by cases c)

/-! ### Classifier lemmas -/

/-- The `if`/`elif` chain of the legacy classifier computes exactly the
first-match-wins lookup in the ordered rule table. -/
theorem classifyType_eq_classifyTypeTable (n : String) :
    classifyType n = classifyTypeTable n := by
  unfold classifyType classifyUpper classifyTypeTable tableMatch
  simp only [firstMatch, ruleTable]
  cases _h1 : hasSubstr (pyUpper n) "IPU_A" with
  | true => rfl
  | false =>
    cases _h2 : hasSubstr (pyUpper n) "IPU_B_ARM" with
    | true => rfl
    | false =>
      cases _h3 : hasSubstr (pyUpper n) "IPU_B" with
      | true => rfl
      | false =>
        cases _h4 : hasSubstr (pyUpper n) "ISU_ARM" with
        | true => rfl
        | false =>
          cases _h5 : hasSubstr (pyUpper n) "ISU_C48" with
          | true => rfl
          | false =>
            cases _h6 : hasSubstr (pyUpper n) "SDU_A_ARM" with
            | true => rfl
            | false =>
              cases _h7 : hasSubstr (pyUpper n) "SDU_A" with
              | true => rfl
              | false =>
                cases _h8 : hasSubstr (pyUpper n) "SPU_CGW" with
                | true => rfl
                | false =>
                  cases _h9 : hasSubstr (pyUpper n) "SPU_B" with
                  | true => rfl
                  | false =>
                    cases _h10 : hasSubstr (pyUpper n) "SPU_C" with
                    | true => rfl
                    | false =>
                      cases _h11 : hasSubstr (pyUpper n) "SPU_K1" with
                      | true => rfl
                      | false =>
                        cases _h12 : hasSubstr (pyUpper n) "SPU_O" with
                        | true => rfl
                        | false =>
                          cases _h13 : hasSubstr (pyUpper n) "SPU_P" with
                          | true => rfl
                          | false =>
                            cases _h14 : hasSubstr (pyUpper n) "SPU_J_ARM" with
                            | true => rfl
                            | false =>
                              cases _h15 : hasSubstr (pyUpper n) "SPU_J" with
                              | true => rfl
                              | false =>
                                cases _h16 : hasSubstr (pyUpper n) "SPU_M_ARM" with
                                | true => rfl
                                | false =>
                                  cases _h17 : hasSubstr (pyUpper n) "SPU_M" with
                                  | true => rfl
                                  | false =>
                                    cases _h18 : hasSubstr (pyUpper n) "SPU_G" with
                                    | true => rfl
                                    | false =>
                                      cases _h19 : hasSubstr (pyUpper n) "OMU" with
                                      | true => rfl
                                      | false =>
                                        rfl

/-! ### Claim theorems: descriptor parser -/

/-- C1: for every legacy-grammar descriptor (one whose stripped text does
not contain the new-grammar trigger), `extract_vm_info` returns the
regex-extracted (or whole stripped) name together with the type obtained by
first-match-wins lookup in the ordered rule table, with the
leading-uppercase-run and `UNKNOWN` fallbacks; verified on the literal
cases `IPU_B_ARM_3 → IPU_B_ARM`, `SPU_CGW_0080 → SPU_CGW`, `XYZ_9 → XYZ`,
`"" → UNKNOWN`, and the docstring example with the `VM Name=` pattern. -/
theorem c1_legacy_classification :
    (∀ s : String, hasSubstr (pyStrip s) NEW_TRIGGER = false →
      extract_vm_info (some s) =
        (some (legacyName (pyStrip s)),
         some (classifyTypeTable (legacyName (pyStrip s)))))
    ∧ extract_vm_info (some "IPU_B_ARM_3") = (some "IPU_B_ARM_3", some "IPU_B_ARM")
    ∧ extract_vm_info (some "SPU_CGW_0080") = (some "SPU_CGW_0080", some "SPU_CGW")
    ∧ extract_vm_info (some "XYZ_9") = (some "XYZ_9", some "XYZ")
    ∧ extract_vm_info (some "") = (some "", some "UNKNOWN")
    ∧ extract_vm_info (some "nodeName=VNFP, VM Name=SPU_CGW_0080")
        = (some "SPU_CGW_0080", some "SPU_CGW") := by
  refine ⟨?_, by decide, by decide, by decide, by decide, by decide⟩
  intro s h
  unfold extract_vm_info
  simp only [h, Bool.false_eq_true, if_false]
  rw [classifyType_eq_classifyTypeTable]

/-- Witness for C1 at the concrete legacy descriptor `SPU_CGW_0080`. -/
theorem c1_legacy_classification_witness :
    hasSubstr (pyStrip "SPU_CGW_0080") NEW_TRIGGER = false ∧
    extract_vm_info (some "SPU_CGW_0080") =
      (some (legacyName (pyStrip "SPU_CGW_0080")),
       some (classifyTypeTable (legacyName (pyStrip "SPU_CGW_0080")))) :=
  ⟨by decide, c1_legacy_classification.1 "SPU_CGW_0080" (by decide)⟩

/-- C10: the legacy rule table is matched against the uppercased name
(case-insensitively), while the final fallback regex `^([A-Z]+)` runs on
the original name, so a name starting with a lowercase letter that matches
no table rule classifies as `UNKNOWN`; verified on `spu_cgw_1 → SPU_CGW`
and `abcd_1 → UNKNOWN`. -/
theorem c10_case_sensitivity :
    (∀ name t, tableMatch (pyUpper name) = some t → classifyType name = t)
    ∧ (∀ (name : String) (c : Char), tableMatch (pyUpper name) = none →
        name.data.head? = some c → 'a' ≤ c → c ≤ 'z' →
        classifyType name = "UNKNOWN")
    ∧ extract_vm_info (some "spu_cgw_1") = (some "spu_cgw_1", some "SPU_CGW")
    ∧ extract_vm_info (some "abcd_1") = (some "abcd_1", some "UNKNOWN") := by
  refine ⟨?_, ?_, by decide, by decide⟩
  · intro name t h
    rw [classifyType_eq_classifyTypeTable]
    unfold classifyTypeTable
    rw [h]
  · intro name c h hc hlo _
    rw [classifyType_eq_classifyTypeTable]
    unfold classifyTypeTable
    rw [h]
    have hAZ : isUpperAZ c = false := by
      have hz : ('Z' : Char) < c := lt_of_lt_of_le (by decide) hlo
      simp [isUpperAZ, not_le.mpr hz]
    have hdat : leadingUpper name = "" := by
      unfold leadingUpper
      cases hd : name.data with
      | nil => rfl
      | cons c' rest =>
        rw [hd] at hc
        simp only [List.head?] at hc
        cases hc
        simp [List.takeWhile, hAZ]
    rw [hdat]
    decide

/-- Witness for C10 at the concrete names `spu_cgw_1` and `abcd_1`. -/
theorem c10_case_sensitivity_witness :
    (tableMatch (pyUpper "spu_cgw_1") = some "SPU_CGW" ∧
      classifyType "spu_cgw_1" = "SPU_CGW") ∧
    (tableMatch (pyUpper "abcd_1") = none ∧ ("abcd_1" : String).data.head? = some 'a' ∧
      classifyType "abcd_1" = "UNKNOWN") :=
  ⟨⟨by decide, c10_case_sensitivity.1 "spu_cgw_1" "SPU_CGW" (by decide)⟩,
   ⟨by decide, by decide,
    c10_case_sensitivity.2.1 "abcd_1" 'a' (by decide) (by decide) (by decide) (by decide)⟩⟩

/-- C2 counterexample: for the new-grammar descriptor
`Virtual machine name=A_B_C` exactly two tokens remain after dropping the
first (`B` and `C`), yet the code returns `vm_type = "B"` and
`vm_name = "B_C"`, refuting the claim's clause that `vm_type` equals
`vm_name` whenever exactly 2 tokens remain after dropping the first. -/
theorem c2_two_remaining_counterexample :
    ((newParts (pyStrip "Virtual machine name=A_B_C")).drop 1).length = 2 ∧
    extract_vm_info (some "Virtual machine name=A_B_C") = (some "B_C", some "B") ∧
    ("B" : String) ≠ "B_C" :=
  ⟨by decide, by decide, by decide⟩

/-- C2 (amended): for every descriptor containing the trigger, the text
after it is stripped and split on `_`; with more than one token `vm_name`
drops the first token; with more than two tokens `vm_type` additionally
drops the last; with exactly two tokens (one remaining after dropping the
first) `vm_type` equals `vm_name`; with at most one token the full name is
kept and the type is `UNKNOWN`; verified on the literal cases
`ARQ_SBCOMU02_OMUSBIG2_1` and `SITE_ONLY`. -/
theorem c2_new_grammar :
    (∀ s : String, hasSubstr (pyStrip s) NEW_TRIGGER = true →
      ((newParts (pyStrip s)).length > 1 →
        (extract_vm_info (some s)).1 =
          some (String.intercalate "_" ((newParts (pyStrip s)).drop 1)))
      ∧ ((newParts (pyStrip s)).length > 2 →
        (extract_vm_info (some s)).2 =
          some (String.intercalate "_" (((newParts (pyStrip s)).drop 1).dropLast)))
      ∧ ((newParts (pyStrip s)).length = 2 →
        (extract_vm_info (some s)).2 = (extract_vm_info (some s)).1)
      ∧ ((newParts (pyStrip s)).length ≤ 1 →
        extract_vm_info (some s) = (some (newFullName (pyStrip s)), some "UNKNOWN")))
    ∧ extract_vm_info (some "Virtual machine name=ARQ_SBCOMU02_OMUSBIG2_1")
        = (some "SBCOMU02_OMUSBIG2_1", some "SBCOMU02_OMUSBIG2")
    ∧ extract_vm_info (some "Virtual machine name=SITE_ONLY")
        = (some "ONLY", some "ONLY") := by
  refine ⟨?_, by decide, by decide⟩
  intro s h
  simp only [extract_vm_info, h, eq_self_iff_true, if_true]
  refine ⟨?_, ?_, ?_, ?_⟩
  · intro hp
    rw [if_pos hp]
  · intro hp
    rw [if_pos (by omega : (newParts (pyStrip s)).length > 1), if_pos hp]
  · intro hp
    rw [if_pos (by omega : (newParts (pyStrip s)).length > 1),
      if_neg (by omega : ¬ (newParts (pyStrip s)).length > 2)]
  · intro hp
    rw [if_neg (by omega : ¬ (newParts (pyStrip s)).length > 1)]

/-- Witness for C2 (amended) at the concrete descriptor
`Virtual machine name=ARQ_SBCOMU02_OMUSBIG2_1`. -/
theorem c2_new_grammar_witness :
    hasSubstr (pyStrip "Virtual machine name=ARQ_SBCOMU02_OMUSBIG2_1") NEW_TRIGGER = true ∧
    (newParts (pyStrip "Virtual machine name=ARQ_SBCOMU02_OMUSBIG2_1")).length > 2 ∧
    (extract_vm_info (some "Virtual machine name=ARQ_SBCOMU02_OMUSBIG2_1")).2 =
      some (String.intercalate "_"
        (((newParts (pyStrip "Virtual machine name=ARQ_SBCOMU02_OMUSBIG2_1")).drop 1).dropLast)) :=
  ⟨by decide, by decide,
   (c2_new_grammar.1 "Virtual machine name=ARQ_SBCOMU02_OMUSBIG2_1" (by decide)).2.1
     (by decide)⟩

/-! ### Loader lemmas -/

/-- Concrete permissive date parser used by witnesses: only the text `t`
parses (to minute 0). -/
def demoParseDate : String → Option Nat :=
  fun s => if s == "t" then some 0 else none

/-- Concrete permissive numeric parser used by witnesses: only the text `5`
parses. -/
def demoToNumeric : String → Option MyRat :=
  fun s => if s == "5" then some ⟨5, 1⟩ else none

/-- A successful `findHeaderIdx` points at a line satisfying the header
predicate. -/
theorem findHeaderIdx_some_get? :
    ∀ (l : List String) (i : Nat), findHeaderIdx l = some i →
      ∃ s, l.get? i = some s ∧ isHeaderLine s = true := by
  intro l
  induction l with
  | nil => intro i h; simp [findHeaderIdx] at h
  | cons a rest ih =>
    intro i h
    by_cases ha : isHeaderLine a = true
    · simp only [findHeaderIdx, ha, if_true] at h
      cases h
      exact ⟨a, rfl, ha⟩
    · simp only [findHeaderIdx, ha, if_false, Bool.false_eq_true] at h
      obtain ⟨j, hj, rfl⟩ := Option.map_eq_some'.mp h
      obtain ⟨s, hs, hh⟩ := ih j hj
      exact ⟨s, by simpa using hs, hh⟩

/-- Index lookup inside a prefix agrees with the full list. -/
theorem get?_take_some :
    ∀ (n : Nat) (l : List String) (i : Nat) (s : String),
      (l.take n).get? i = some s → l.get? i = some s := by
  intro n
  induction n with
  | zero => intro l i s h; simp at h
  | succ n ih =>
    intro l i s h
    cases l with
    | nil => simp at h
    | cons a rest =>
      cases i with
      | zero => simpa using h
      | succ i => simpa using ih rest i s (by simpa using h)

/-- The columns of the parsed table are the comma-split of the line at the
skip offset. -/
theorem read_csv_columns_get? :
    ∀ (i : Nat) (lines : List String) (s : String),
      lines.get? i = some s → (read_csv lines i).columns = pySplit s "," := by
  intro i
  induction i with
  | zero =>
    intro lines s h
    cases lines with
    | nil => simp at h
    | cons a rest =>
      simp only [List.get?] at h
      cases h
      rfl
  | succ i ih =>
    intro lines s h
    cases lines with
    | nil => simp at h
    | cons a rest =>
      simp only [List.get?] at h
      have : read_csv (a :: rest) (i + 1) = read_csv rest i := by
        unfold read_csv
        rfl
      rw [this]
      exact ih rest s h

/-- Splitting a filtered list into kept and dropped parts preserves the
total length. -/
theorem length_filter_add_not (p : α → Bool) (l : List α) :
    (l.filter p).length + (l.filter (fun a => !p a)).length = l.length := by
  induction l with
  | nil => rfl
  | cons a rest ih =>
    cases hp : p a <;> simp [List.filter, hp] <;> omega

/-! ### Claim theorems: loader -/

/-- C3: the CPU usage column is resolved by presence priority: the
new-schema marker selects the mean column, else the old-schema marker
selects the average column, else resolution fails; in the loader the
failure surfaces as the `UnknownCpuColumn` null result. -/
theorem c3_cpu_resolution :
    (∀ cols : List String,
      (cols.contains "Maximum CPU Load (%)" = true →
        resolveCpu cols = some "Mean CPU Load (%)")
      ∧ (cols.contains "Maximum CPU Load (%)" = false →
          cols.contains "CPU max usage (%)" = true →
          resolveCpu cols = some "CPU average usage (%)")
      ∧ (cols.contains "Maximum CPU Load (%)" = false →
          cols.contains "CPU max usage (%)" = false →
          resolveCpu cols = none))
    ∧ (∀ (parseDate : String → Option Nat) (toNumeric : String → Option MyRat)
        (lines : List String),
        requiredCols.all (fun c => (loadCols lines).contains c) = true →
        resolveCpu (loadCols lines) = none →
        load_data parseDate toNumeric lines = Except.error LoadError.UnknownCpuColumn) := by
  constructor
  · intro cols
    refine ⟨?_, ?_, ?_⟩
    · intro h1; unfold resolveCpu; rw [if_pos h1]
    · intro h1 h2; unfold resolveCpu
      rw [if_neg (by rw [h1]; simp), if_pos h2]
    · intro h1 h2; unfold resolveCpu
      rw [if_neg (by rw [h1]; simp), if_neg (by rw [h2]; simp)]
  · intro pd tn lines hreq hres
    unfold load_data
    rw [if_pos hreq, hres]

/-- Lines of a CSV whose header carries neither CPU column set. -/
def noCpuLines : List String :=
  ["Start Time,NE Name,VM,Other", "t,n,v,5"]

/-- Witness for C3: priority resolution on concrete column lists, and the
loader failing with `UnknownCpuColumn` on a concrete schema-less file. -/
theorem c3_cpu_resolution_witness :
    (resolveCpu ["Maximum CPU Load (%)", "CPU max usage (%)"] = some "Mean CPU Load (%)") ∧
    (resolveCpu ["CPU max usage (%)"] = some "CPU average usage (%)") ∧
    (requiredCols.all (fun c => (loadCols noCpuLines).contains c) = true ∧
      resolveCpu (loadCols noCpuLines) = none ∧
      load_data demoParseDate demoToNumeric noCpuLines =
        Except.error LoadError.UnknownCpuColumn) :=
  ⟨(c3_cpu_resolution.1 ["Maximum CPU Load (%)", "CPU max usage (%)"]).1 (by decide),
   (c3_cpu_resolution.1 ["CPU max usage (%)"]).2.1 (by decide) (by decide),
   by decide, by decide,
   c3_cpu_resolution.2 demoParseDate demoToNumeric noCpuLines (by decide) (by decide)⟩

/-- Lines with no header line in the whole (hence in the 50-line) window. -/
def badLines : List String := ["garbage line", "a,b,c", "1,2,3"]

/-- C4 counterexample: on a file with no header line in the scan window the
loader does not fail with a schema-not-found condition before parsing; it
keeps the default offset 0, parses from the first line, and then fails the
required-columns validation (`MissingColumns`). -/
theorem c4_no_schema_counterexample :
    findHeaderIdx (badLines.take 50) = none ∧
    headerRow badLines = 0 ∧
    load_data demoParseDate demoToNumeric badLines =
      Except.error LoadError.MissingColumns :=
  ⟨by decide, by decide, by decide⟩

/-- C4 (amended): the loader scans only the first 50 lines for the first
line containing both `Start Time` and `NE Name`, treats that line as the
header (all prior lines are discarded and the table's columns come from
that line); when no such line exists in the window the header offset
defaults to 0 and parsing proceeds from the first line (failing the
required-columns validation rather than a schema-not-found condition). -/
theorem c4_header_scan :
    (∀ (lines : List String) (i : Nat),
      findHeaderIdx (lines.take 50) = some i →
      headerRow lines = i ∧
      ∃ s, lines.get? i = some s ∧ isHeaderLine s = true ∧
        (read_csv lines (headerRow lines)).columns = pySplit s ",")
    ∧ (∀ lines : List String,
        findHeaderIdx (lines.take 50) = none → headerRow lines = 0) := by
  constructor
  · intro lines i h
    have hr : headerRow lines = i := by unfold headerRow; rw [h]; rfl
    obtain ⟨s, hs, hh⟩ := findHeaderIdx_some_get? _ _ h
    have hs' := get?_take_some 50 lines i s hs
    exact ⟨hr, s, hs', hh, by rw [hr]; exact read_csv_columns_get? i lines s hs'⟩
  · intro lines h
    unfold headerRow
    rw [h]
    rfl

/-- Lines of a well-formed old-schema CSV preceded by one junk line; the
third data row has an unparsable date. -/
def c6Lines : List String :=
  ["junk",
   "Start Time,NE Name,VM,CPU max usage (%),CPU average usage (%)",
   "t,n1,vmA,9,5",
   "bad,n2,vmB,9,5"]

/-- Witness for C4 at a concrete file whose header sits at index 1. -/
theorem c4_header_scan_witness :
    findHeaderIdx (c6Lines.take 50) = some 1 ∧
    (headerRow c6Lines = 1 ∧
      ∃ s, c6Lines.get? 1 = some s ∧ isHeaderLine s = true ∧
        (read_csv c6Lines (headerRow c6Lines)).columns = pySplit s ",") :=
  ⟨by decide, c4_header_scan.1 c6Lines 1 (by decide)⟩

/-- C6: on every successful load the returned dataset is exactly the parsed
rows whose timestamp, CPU value and VM name are all non-null: it is the
filter of the parsed rows by that predicate, a sublist of them (input order
preserved), rows failing the predicate are absent, rows passing it are
present, and its length is the input row count minus the dropped rows. -/
theorem c6_row_dropping :
    ∀ (parseDate : String → Option Nat) (toNumeric : String → Option MyRat)
      (lines : List String) (ds : List ParsedRow),
      load_data parseDate toNumeric lines = Except.ok ds →
      ∃ src, resolveCpu (loadCols lines) = some src ∧
        ds = (parsedRows parseDate toNumeric lines src).filter keepRow ∧
        List.Sublist ds (parsedRows parseDate toNumeric lines src) ∧
        (∀ r, r ∈ parsedRows parseDate toNumeric lines src →
          (keepRow r = true → r ∈ ds) ∧ (keepRow r = false → r ∉ ds)) ∧
        ds.length + ((parsedRows parseDate toNumeric lines src).filter
          (fun r => !keepRow r)).length =
          (parsedRows parseDate toNumeric lines src).length := by
  intro pd tn lines ds h
  unfold load_data at h
  by_cases hreq : requiredCols.all (fun c => (loadCols lines).contains c) = true
  · rw [if_pos hreq] at h
    cases hres : resolveCpu (loadCols lines) with
    | none => rw [hres] at h; cases h
    | some src =>
      rw [hres] at h
      dsimp only at h
      by_cases hc : (loadCols lines).contains src = true
      · rw [if_pos hc] at h
        have hds : (parsedRows pd tn lines src).filter keepRow = ds :=
          Except.ok.inj h
        refine ⟨src, rfl, hds.symm, ?_, ?_, ?_⟩
        · rw [← hds]; exact List.filter_sublist _
        · intro r hr
          constructor
          · intro hk
            rw [← hds]
            exact List.mem_filter.mpr ⟨hr, hk⟩
          · intro hk hmem
            rw [← hds] at hmem
            have := (List.mem_filter.mp hmem).2
            rw [hk] at this
            cases this
        · rw [← hds]
          exact length_filter_add_not keepRow _
      · rw [if_neg hc] at h; cases h
  · rw [if_neg hreq] at h; cases h

/-- Witness for C6 at a concrete file: the row with the unparsable date is
dropped, the valid row is kept. -/
theorem c6_row_dropping_witness :
    load_data demoParseDate demoToNumeric c6Lines =
      Except.ok [⟨some 0, some "n1", some "vmA", some "UNKNOWN", some ⟨5, 1⟩⟩] ∧
    ∃ src, resolveCpu (loadCols c6Lines) = some src ∧
      [(⟨some 0, some "n1", some "vmA", some "UNKNOWN", some ⟨5, 1⟩⟩ : ParsedRow)] =
        (parsedRows demoParseDate demoToNumeric c6Lines src).filter keepRow ∧
      List.Sublist [⟨some 0, some "n1", some "vmA", some "UNKNOWN", some ⟨5, 1⟩⟩]
        (parsedRows demoParseDate demoToNumeric c6Lines src) ∧
      (∀ r, r ∈ parsedRows demoParseDate demoToNumeric c6Lines src →
        (keepRow r = true →
          r ∈ [(⟨some 0, some "n1", some "vmA", some "UNKNOWN", some ⟨5, 1⟩⟩ : ParsedRow)]) ∧
        (keepRow r = false →
          r ∉ [(⟨some 0, some "n1", some "vmA", some "UNKNOWN", some ⟨5, 1⟩⟩ : ParsedRow)])) ∧
      [(⟨some 0, some "n1", some "vmA", some "UNKNOWN", some ⟨5, 1⟩⟩ : ParsedRow)].length +
        ((parsedRows demoParseDate demoToNumeric c6Lines src).filter
          (fun r => !keepRow r)).length =
        (parsedRows demoParseDate demoToNumeric c6Lines src).length :=
  ⟨by decide, c6_row_dropping demoParseDate demoToNumeric c6Lines _ (by decide)⟩

/-! ### Order lemmas for the lexicographic string comparison -/

/-- Characters with equal code points are equal. -/
theorem charEq_of_toNat_eq {a b : Char} (h : a.toNat = b.toNat) : a = b :=
  Char.eq_of_val_eq (UInt32.ext h)

/-- Strings with equal character lists are equal. -/
theorem strEq_of_data_eq {a b : String} (h : a.data = b.data) : a = b := by
  cases a; cases b; exact congrArg String.mk h

/-- The strict lexicographic comparison is irreflexive. -/
theorem listLtB_irrefl : ∀ l : List Char, listLtB l l = false := by
  intro l
  induction l with
  | nil => rfl
  | cons a as ih => simp [listLtB, ih]

/-- The strict lexicographic comparison is transitive. -/
theorem listLtB_trans :
    ∀ (a b c : List Char), listLtB a b = true → listLtB b c = true →
      listLtB a c = true := by
  intro a
  induction a with
  | nil =>
    intro b c hab hbc
    cases b with
    | nil => simp [listLtB] at hab
    | cons y bs =>
      cases c with
      | nil => simp [listLtB] at hbc
      | cons z cs => rfl
  | cons x as ih =>
    intro b c hab hbc
    cases b with
    | nil => simp [listLtB] at hab
    | cons y bs =>
      cases c with
      | nil => simp [listLtB] at hbc
      | cons z cs =>
        simp only [listLtB] at hab hbc ⊢
        split_ifs at hab hbc ⊢ <;>
          first
            | rfl
            | omega
            | (exact hab)
            | (exact hbc)
            | (exact ih bs cs hab hbc)

/-- Two lists neither of which is lexicographically below the other are
equal. -/
theorem listLtB_eq_of_not :
    ∀ (a b : List Char), listLtB a b = false → listLtB b a = false → a = b := by
  intro a
  induction a with
  | nil =>
    intro b h1 _
    cases b with
    | nil => rfl
    | cons y bs => simp [listLtB] at h1
  | cons x as ih =>
    intro b h1 h2
    cases b with
    | nil => simp [listLtB] at h2
    | cons y bs =>
      simp only [listLtB] at h1 h2
      split_ifs at h1 h2 <;>
        first
          | (cases h1)
          | (cases h2)
          | (have hx : x = y := charEq_of_toNat_eq (by omega)
             rw [hx, ih bs h1 h2])

/-- `strLt` is transitive. -/
theorem strLt_trans {a b c : String} (h1 : strLt a b) (h2 : strLt b c) :
    strLt a c :=
  listLtB_trans a.data b.data c.data h1 h2

/-- `strLt` is irreflexive. -/
theorem strLt_irrefl (a : String) : ¬ strLt a a := by
  unfold strLt
  rw [listLtB_irrefl]
  simp

/-- Strings neither of which is below the other are equal. -/
theorem strEq_of_not_lt {a b : String} (h1 : ¬ strLt a b) (h2 : ¬ strLt b a) :
    a = b := by
  unfold strLt at h1 h2
  exact strEq_of_data_eq
    (listLtB_eq_of_not a.data b.data
      (Bool.not_eq_true _ ▸ eq_false_of_ne_true h1)
      (Bool.not_eq_true _ ▸ eq_false_of_ne_true h2))

instance : IsTrans String strLe :=
  ⟨by
    intro a b c h1 h2
    rcases h1 with h1 | rfl
    · rcases h2 with h2 | rfl
      · exact Or.inl (strLt_trans h1 h2)
      · exact Or.inl h1
    · exact h2⟩

instance : IsTotal String strLe :=
  ⟨by
    intro a b
    by_cases h1 : strLt a b
    · exact Or.inl (Or.inl h1)
    · by_cases h2 : strLt b a
      · exact Or.inr (Or.inl h2)
      · exact Or.inl (Or.inr (strEq_of_not_lt h1 h2))⟩

instance : IsAntisymm String strLe :=
  ⟨by
    intro a b h1 h2
    rcases h1 with h1 | rfl
    · rcases h2 with h2 | rfl
      · exact absurd (strLt_trans h1 h2) (strLt_irrefl a)
      · rfl
    · rfl⟩

instance : IsTrans (TrendKey × MyRat) trendLe :=
  ⟨by
    intro a b c h1 h2
    rcases h1 with h1 | ⟨he1, hd1⟩
    · rcases h2 with h2 | ⟨he2, _⟩
      · exact Or.inl (strLt_trans h1 h2)
      · exact Or.inl (he2 ▸ h1)
    · rcases h2 with h2 | ⟨he2, hd2⟩
      · exact Or.inl (he1 ▸ h2)
      · exact Or.inr ⟨he1.trans he2, hd1.trans hd2⟩⟩

instance : IsTotal (TrendKey × MyRat) trendLe :=
  ⟨by
    intro a b
    by_cases h1 : strLt a.1.vm_name b.1.vm_name
    · exact Or.inl (Or.inl h1)
    · by_cases h2 : strLt b.1.vm_name a.1.vm_name
      · exact Or.inr (Or.inl h2)
      · have he := strEq_of_not_lt h1 h2
        rcases Nat.le_total a.1.date b.1.date with hd | hd
        · exact Or.inl (Or.inr ⟨he, hd⟩)
        · exact Or.inr (Or.inr ⟨he.symm, hd⟩)⟩

/-! ### Aggregation lemmas -/

/-- In a trend table sorted by (`vm_name`, date), the rows of any single VM
are non-decreasing in bucket time. -/
theorem pairwise_date_of_sorted (l : List (TrendKey × MyRat))
    (h : List.Pairwise trendLe l) (v : String) :
    List.Pairwise (fun a b => a.1.date ≤ b.1.date)
      (l.filter (fun p => p.1.vm_name == v)) := by
  have h2 := List.Pairwise.filter (R := trendLe) (fun p => p.1.vm_name == v) h
  refine List.Pairwise.imp_of_mem ?_ h2
  intro a b ha hb hr
  have hav : a.1.vm_name = v := by
    simpa using (List.mem_filter.mp ha).2
  have hbv : b.1.vm_name = v := by
    simpa using (List.mem_filter.mp hb).2
  rcases hr with hr | ⟨_, hd⟩
  · rw [hav, hbv] at hr
    exact absurd hr (strLt_irrefl v)
  · exact hd

/-- With pairwise-distinct group keys, filtering the records by the key of
a member record yields exactly that record. -/
theorem filter_keyOf_singleton :
    ∀ (rs : List Rec), (rs.map keyOf).Nodup → ∀ r ∈ rs,
      rs.filter (fun x => keyOf x == keyOf r) = [r] := by
  intro rs
  induction rs with
  | nil => intro _ r hr; cases hr
  | cons a rest ih =>
    intro h r hr
    simp only [List.map_cons, List.nodup_cons] at h
    obtain ⟨hna, hnd⟩ := h
    rcases List.mem_cons.mp hr with rfl | hr
    · have hnil : rest.filter (fun x => keyOf x == keyOf r) = [] := by
        rw [List.filter_eq_nil_iff]
        intro x hx
        simp only [beq_iff_eq]
        intro hk
        exact hna (hk ▸ List.mem_map_of_mem keyOf hx)
      simp [List.filter, hnil]
    · have hne : (keyOf a == keyOf r) = false := by
        apply beq_eq_false_iff_ne.mpr
        intro he
        exact hna (he ▸ List.mem_map_of_mem keyOf hr)
      simp [List.filter, hne, ih hnd r hr]

/-- The mean of a single value is that value. -/
theorem listMean_singleton (c : MyRat) : listMean [c] = c := by
  cases c with
  | mk n d =>
    simp [listMean, listSum, ratAdd, ratDiv, ratMul, ratInv]

/-! ### Claim theorems: aggregation -/

/-- C5: the trend aggregation is sorted by (`vm_name`, bucket time); the
subsequence of any single VM is non-decreasing in bucket time; every
distinct (bucket, ne, vm_name, vm_type) key present contributes one row
holding the arithmetic mean of its records' CPU values; and on a table
with one record per key each record's value is returned unchanged. -/
theorem c5_aggregation :
    ∀ rs : List Rec,
      List.Sorted trendLe (df_trend rs)
      ∧ (∀ v : String,
          List.Pairwise (fun a b => a.1.date ≤ b.1.date)
            ((df_trend rs).filter (fun p => p.1.vm_name == v)))
      ∧ (∀ k, k ∈ rs.map keyOf →
          (k, listMean ((rs.filter (fun r => keyOf r == k)).map Rec.cpu)) ∈ df_trend rs)
      ∧ ((rs.map keyOf).Nodup → ∀ r ∈ rs, (keyOf r, r.cpu) ∈ df_trend rs) := by
  intro rs
  have hsorted : List.Sorted trendLe (df_trend rs) :=
    List.sorted_insertionSort trendLe _
  have hmem : ∀ k, k ∈ rs.map keyOf →
      (k, listMean ((rs.filter (fun r => keyOf r == k)).map Rec.cpu)) ∈ df_trend rs := by
    intro k hk
    have hk' : k ∈ groupKeys rs := by
      unfold groupKeys
      rw [(List.perm_insertionSort keyLe _).mem_iff]
      exact List.mem_dedup.mpr hk
    unfold df_trend
    rw [(List.perm_insertionSort trendLe _).mem_iff]
    exact List.mem_map.mpr ⟨k, hk', rfl⟩
  refine ⟨hsorted, fun v => pairwise_date_of_sorted _ hsorted v, hmem, ?_⟩
  intro hnd r hr
  have hfil := filter_keyOf_singleton rs hnd r hr
  have hm := hmem (keyOf r) (List.mem_map_of_mem keyOf hr)
  rw [hfil] at hm
  simpa [listMean_singleton] using hm

/-- Records used by the C5 witness: one VM, two buckets, one record per
key. -/
def demoRecs : List Rec :=
  [⟨0, "n", "v", "t", ⟨5, 1⟩⟩, ⟨130, "n", "v", "t", ⟨7, 1⟩⟩]

/-- Witness for C5 at a concrete one-record-per-key table. -/
theorem c5_aggregation_witness :
    (demoRecs.map keyOf).Nodup ∧
    (keyOf ⟨0, "n", "v", "t", ⟨5, 1⟩⟩, MyRat.mk 5 1) ∈ df_trend demoRecs :=
  ⟨by decide,
   (c5_aggregation demoRecs).2.2.2 (by decide) ⟨0, "n", "v", "t", ⟨5, 1⟩⟩ (by decide)⟩

/-! ### Color-map lemmas -/

/-- Membership in `sortedUnique` is membership in the underlying list. -/
theorem mem_sortedUnique {a : String} {l : List String} :
    a ∈ sortedUnique l ↔ a ∈ l := by
  unfold sortedUnique
  rw [(List.perm_insertionSort strLe _).mem_iff, List.mem_dedup]

/-- `sortedUnique` depends only on the set of elements. -/
theorem sortedUnique_eq_of_mem_iff {l l' : List String}
    (h : ∀ x, x ∈ l ↔ x ∈ l') : sortedUnique l = sortedUnique l' := by
  unfold sortedUnique
  refine List.eq_of_perm_of_sorted ?_ (List.sorted_insertionSort strLe _)
    (List.sorted_insertionSort strLe _)
  refine (List.perm_insertionSort strLe _).trans
    (List.Perm.trans ?_ (List.perm_insertionSort strLe _).symm)
  refine (List.perm_ext_iff_of_nodup (List.nodup_dedup l) (List.nodup_dedup l')).mpr ?_
  intro a
  simp only [List.mem_dedup]
  exact h a

/-- Looking up key `k` after the in-place replacement of its value. -/
theorem lookupKey_map_self :
    ∀ (m : List (String × String)) (k v : String),
      m.any (fun p => p.1 == k) = true →
      lookupKey k (m.map (fun p => if p.1 = k then (k, v) else p)) = some v := by
  intro m k v
  induction m with
  | nil => intro h; cases h
  | cons p rest ih =>
    intro h
    by_cases hp : p.1 = k
    · simp [lookupKey, hp]
    · have hbp : (p.1 == k) = false := beq_eq_false_iff_ne.mpr hp
      simp only [List.any_cons, hbp, Bool.false_or] at h
      simp [lookupKey, hp, ih h]

/-- Looking up key `k` after appending a fresh binding for it. -/
theorem lookupKey_append_self :
    ∀ (m : List (String × String)) (k v : String),
      m.any (fun p => p.1 == k) = false →
      lookupKey k (m ++ [(k, v)]) = some v := by
  intro m k v
  induction m with
  | nil => simp [lookupKey]
  | cons p rest ih =>
    intro h
    simp only [List.any_cons, Bool.or_eq_false_iff] at h
    have hp : ¬ p.1 = k := by
      intro he
      rw [beq_eq_false_iff_ne] at h
      exact h.1 he
    simp only [List.cons_append]
    simp [lookupKey, hp]
    exact ih (by simpa using h.2)

/-- Looking up the just-assigned key returns the new value. -/
theorem lookupKey_dictInsert_self (m : List (String × String)) (k v : String) :
    lookupKey k (dictInsert m k v) = some v := by
  unfold dictInsert
  by_cases ha : m.any (fun p => p.1 == k) = true
  · rw [if_pos ha]
    exact lookupKey_map_self m k v ha
  · rw [if_neg ha]
    exact lookupKey_append_self m k v (Bool.eq_false_iff.mpr ha)

/-- Replacing the value at key `k` leaves lookups of other keys alone. -/
theorem lookupKey_map_replace (rest : List (String × String)) (k v k' : String)
    (h : k' ≠ k) :
    lookupKey k' (rest.map (fun p => if p.1 = k then (k, v) else p)) =
      lookupKey k' rest := by
  induction rest with
  | nil => rfl
  | cons p rest ih =>
    by_cases hp : p.1 = k
    · have hkk : ¬ k = k' := fun he => h he.symm
      have hpk' : ¬ p.1 = k' := by rw [hp]; exact hkk
      simp [lookupKey, hp, hkk, hpk', ih]
    · simp [lookupKey, hp, ih]

/-- Appending a binding for key `k` leaves lookups of other keys alone. -/
theorem lookupKey_append_single (m : List (String × String)) (k v k' : String)
    (h : k' ≠ k) :
    lookupKey k' (m ++ [(k, v)]) = lookupKey k' m := by
  induction m with
  | nil =>
    simp [lookupKey]
    exact fun he => h he.symm
  | cons p rest ih =>
    by_cases hp : p.1 = k' <;> simp [lookupKey, hp, ih]

/-- Inserting at key `k` leaves lookups of other keys alone. -/
theorem lookupKey_dictInsert_ne (m : List (String × String)) (k v k' : String)
    (h : k' ≠ k) :
    lookupKey k' (dictInsert m k v) = lookupKey k' m := by
  unfold dictInsert
  by_cases ha : m.any (fun p => p.1 == k) = true
  · rw [if_pos ha]
    exact lookupKey_map_replace m k v k' h
  · rw [if_neg ha]
    exact lookupKey_append_single m k v k' h

/-- Folding insertions whose keys avoid `c` leaves the lookup of `c`
alone. -/
theorem lookupKey_foldl_not_mem (f : Nat → String) :
    ∀ (l : List (Nat × String)) (cm : List (String × String)) (c : String),
      c ∉ l.map Prod.snd →
      lookupKey c (l.foldl (fun m jc => dictInsert m jc.2 (f jc.1)) cm) =
        lookupKey c cm := by
  intro l
  induction l with
  | nil => intro cm c _; rfl
  | cons jc rest ih =>
    intro cm c h
    simp only [List.map_cons, List.mem_cons, not_or] at h
    obtain ⟨h1, h2⟩ := h
    simp only [List.foldl_cons]
    rw [ih _ _ h2, lookupKey_dictInsert_ne _ _ _ _ h1]

/-- After folding insertions with pairwise-distinct keys, each key looks up
to its own inserted value. -/
theorem lookupKey_foldl_insert (f : Nat → String) :
    ∀ (l : List (Nat × String)) (cm : List (String × String)) (j : Nat) (c : String),
      (j, c) ∈ l → (l.map Prod.snd).Nodup →
      lookupKey c (l.foldl (fun m jc => dictInsert m jc.2 (f jc.1)) cm) =
        some (f j) := by
  intro l
  induction l with
  | nil => intro cm j c h _; cases h
  | cons jc rest ih =>
    intro cm j c hmem hnd
    simp only [List.map_cons, List.nodup_cons] at hnd
    obtain ⟨hni, hnd⟩ := hnd
    rcases List.mem_cons.mp hmem with heq | hmem
    · cases heq
      simp only [List.foldl_cons]
      rw [lookupKey_foldl_not_mem f rest _ c hni]
      exact lookupKey_dictInsert_self cm c (f j)
    · simp only [List.foldl_cons]
      exact ih _ j c hmem hnd

/-- Keys after a dict insertion: the old keys plus the inserted one. -/
theorem mem_keys_dictInsert (m : List (String × String)) (k v a : String) :
    a ∈ (dictInsert m k v).map Prod.fst ↔ a ∈ m.map Prod.fst ∨ a = k := by
  unfold dictInsert
  by_cases ha : m.any (fun p => p.1 == k) = true
  · rw [if_pos ha]
    obtain ⟨p0, hp0, hpk0⟩ := List.any_eq_true.mp ha
    have hpk0' : p0.1 = k := by simpa using hpk0
    simp only [List.map_map, List.mem_map, Function.comp]
    constructor
    · rintro ⟨p, hp, rfl⟩
      by_cases hpk : p.1 = k
      · right; simp [hpk]
      · left; exact ⟨p, hp, by simp [hpk]⟩
    · rintro (⟨p, hp, rfl⟩ | rfl)
      · exact ⟨p, hp, by by_cases hpk : p.1 = k <;> simp [hpk]⟩
      · exact ⟨p0, hp0, by simp [hpk0']⟩
  · rw [if_neg ha]
    simp only [List.map_append, List.map_cons, List.map_nil, List.mem_append,
      List.mem_singleton]

/-- Keys after folding insertions: the old keys plus the inserted ones. -/
theorem mem_keys_foldl_insert (f : Nat → String) :
    ∀ (l : List (Nat × String)) (cm : List (String × String)) (a : String),
      a ∈ ((l.foldl (fun m jc => dictInsert m jc.2 (f jc.1)) cm).map Prod.fst) ↔
        a ∈ cm.map Prod.fst ∨ a ∈ l.map Prod.snd := by
  intro l
  induction l with
  | nil => intro cm a; simp
  | cons jc rest ih =>
    intro cm a
    simp only [List.foldl_cons, List.map_cons, List.mem_cons]
    rw [ih, mem_keys_dictInsert]
    tauto

/-- Keys written by `assignNe`: the accumulated keys plus the children. -/
theorem mem_keys_assignNe (children : List String) (hue : MyRat)
    (cm : List (String × String)) (a : String) :
    a ∈ (assignNe children hue cm).map Prod.fst ↔
      a ∈ cm.map Prod.fst ∨ a ∈ children := by
  unfold assignNe
  rw [mem_keys_foldl_insert (childColor children.length hue), List.enum_map_snd]

/-- Keys of the multi-parent color map: exactly the children of the
parents present. -/
theorem mem_keys_generate_color_map (df : List (String × String)) (a : String) :
    a ∈ (generate_color_map df).map Prod.fst ↔
      ∃ ne ∈ neNamesOf df, a ∈ childrenOf df ne := by
  unfold generate_color_map
  have main : ∀ (ns : List (Nat × String)) (cm : List (String × String)),
      a ∈ ((ns.foldl (fun cm ine =>
          assignNe (childrenOf df ine.2)
            (FIXED_HUES.getD (ine.1 % FIXED_HUES.length) ⟨0, 1⟩) cm) cm).map Prod.fst) ↔
        a ∈ cm.map Prod.fst ∨ ∃ ne ∈ ns.map Prod.snd, a ∈ childrenOf df ne := by
    intro ns
    induction ns with
    | nil => intro cm; simp
    | cons ine rest ih =>
      intro cm
      simp only [List.foldl_cons, List.map_cons, List.mem_cons]
      rw [ih, mem_keys_assignNe]
      constructor
      · rintro ((h | h) | ⟨ne, hne, hch⟩)
        · exact Or.inl h
        · exact Or.inr ⟨ine.2, Or.inl rfl, h⟩
        · exact Or.inr ⟨ne, Or.inr hne, hch⟩
      · rintro (h | ⟨ne, (rfl | hne), hch⟩)
        · exact Or.inl (Or.inl h)
        · exact Or.inl (Or.inr hch)
        · exact Or.inr ⟨ne, hne, hch⟩
  rw [main, List.enum_map_snd]
  simp

/-! ### Claim theorems: color assignment -/

/-- C7: color assignment is deterministic and insertion-order independent:
two inputs with the same set of (`NE Name`, `VM_Type`) pairs produce
identical color maps, because parents and children are sorted before hues
are assigned by position. -/
theorem c7_color_determinism :
    ∀ df1 df2 : List (String × String), df1.toFinset = df2.toFinset →
      generate_color_map df1 = generate_color_map df2 := by
  intro df1 df2 h
  have hmem : ∀ x : String × String, x ∈ df1 ↔ x ∈ df2 := by
    intro x
    rw [← List.mem_toFinset, h, List.mem_toFinset]
  have hne : neNamesOf df1 = neNamesOf df2 := by
    apply sortedUnique_eq_of_mem_iff
    intro a
    simp only [List.mem_map]
    constructor <;> rintro ⟨p, hp, rfl⟩
    · exact ⟨p, (hmem p).mp hp, rfl⟩
    · exact ⟨p, (hmem p).mpr hp, rfl⟩
  have hch : ∀ ne, childrenOf df1 ne = childrenOf df2 ne := by
    intro ne
    apply sortedUnique_eq_of_mem_iff
    intro a
    simp only [List.mem_map, List.mem_filter]
    constructor <;> rintro ⟨p, ⟨hp, hpk⟩, rfl⟩
    · exact ⟨p, ⟨(hmem p).mp hp, hpk⟩, rfl⟩
    · exact ⟨p, ⟨(hmem p).mpr hp, hpk⟩, rfl⟩
  unfold generate_color_map
  rw [hne]
  apply List.foldl_ext
  intro cm ine _
  rw [hch]

/-- Witness for C7: two concrete row lists with the same pair set in
different orders and multiplicities map to the same colors. -/
theorem c7_color_determinism_witness :
    ([("N", "B"), ("N", "A")] : List (String × String)).toFinset =
      ([("N", "A"), ("N", "B"), ("N", "A")] : List (String × String)).toFinset ∧
    generate_color_map [("N", "B"), ("N", "A")] =
      generate_color_map [("N", "A"), ("N", "B"), ("N", "A")] :=
  ⟨by decide,
   c7_color_determinism [("N", "B"), ("N", "A")] [("N", "A"), ("N", "B"), ("N", "A")]
     (by decide)⟩

/-- C8 counterexample: the code formats channels with `int()` truncation,
not rounding.  For a single parent with single child the green component is
exactly `0.49`; `0.49 * 255 = 124.95` truncates to `124` (hex `7c`), which
is what the produced color `#e87c7c` contains, while the claimed
`round(component * 255)` gives `125` (hex `7d`). -/
theorem c8_truncation_counterexample :
    generate_color_map [("N", "A")] = [("A", "#e87c7c")] ∧
    ratEqB (ratMul (hls_to_rgb ⟨0, 10⟩ ⟨7, 10⟩ ⟨7, 10⟩).2.1 ⟨255, 1⟩)
      ⟨12495, 100⟩ = true ∧
    chan (hls_to_rgb ⟨0, 10⟩ ⟨7, 10⟩ ⟨7, 10⟩).2.1 = 124 ∧
    ratFloor (ratAdd ⟨12495, 100⟩ ⟨1, 2⟩) = 125 ∧
    hex2 124 = "7c" ∧ hex2 125 = "7d" ∧ ("#e87c7c" : String) ≠ "#e87d7d" :=
  ⟨by decide, by decide, by decide, by decide, by decide, by decide, by decide⟩

/-- C8 (amended): for child `j` of `k` sorted children, saturation is
`0.70 + (j / max(k-1,1)) * 0.30` and lightness is
`0.70 - (j / max(k-1,1)) * 0.20`; the (hue, lightness, saturation) triple
is converted to RGB and formatted as `#rrggbb` with each channel
`int(component * 255)` (truncation); a parent with exactly one child does
not divide by zero and gets the saturation-`0.70`, lightness-`0.70` point
of its ramp. -/
theorem c8_child_color_formula :
    (∀ (children : List String) (hue : MyRat) (cm : List (String × String))
      (j : Nat) (hj : j < children.length), children.Nodup →
      lookupKey (children.get ⟨j, hj⟩) (assignNe children hue cm) =
        some (childColor children.length hue j))
    ∧ (∀ ne child : String,
        generate_color_map [(ne, child)] = [(child, childColor 1 ⟨0, 10⟩ 0)])
    ∧ childColor 1 ⟨0, 10⟩ 0 = colorHex (hls_to_rgb ⟨0, 10⟩ ⟨7, 10⟩ ⟨7, 10⟩) := by
  refine ⟨?_, ?_, by decide⟩
  · intro children hue cm j hj hnd
    unfold assignNe
    apply lookupKey_foldl_insert (childColor children.length hue)
    · rw [List.mem_enum_iff_get?]
      simp [List.get?_eq_get hj]
    · rw [List.enum_map_snd]
      exact hnd
  · intro ne child
    simp [generate_color_map, neNamesOf, childrenOf, sortedUnique, assignNe,
      dictInsert, List.enum, List.enumFrom, List.insertionSort, List.orderedInsert,
      List.dedup, FIXED_HUES]

/-- Witness for C8 at two concrete children of one parent. -/
theorem c8_child_color_formula_witness :
    (["A", "B"] : List String).Nodup ∧
    lookupKey (["A", "B"].get ⟨1, by decide⟩) (assignNe ["A", "B"] ⟨0, 10⟩ []) =
      some (childColor 2 ⟨0, 10⟩ 1) :=
  ⟨by decide,
   c8_child_color_formula.1 ["A", "B"] ⟨0, 10⟩ [] 1 (by decide) (by decide)⟩

/-- C9 counterexample: in multi-parent mode the legend key for the pair
`("N1", "A")` is `"A"` (the `vm_type` alone), not `"N1 - A"`. -/
theorem c9_parent_key_counterexample :
    (generate_color_map [("N1", "A")]).map Prod.fst = ["A"] ∧
    lookupKey "N1 - A" (generate_color_map [("N1", "A")]) = none :=
  ⟨by decide, by decide⟩

/-- C9 (amended): in both variants the legend keys are the bare `vm_type`
labels: the multi-parent map's keys are exactly the `VM_Type` values
present in the frame, and the single-parent variant's keys are exactly the
`VM_Type` values of the selected `NE Name`. -/
theorem c9_legend_keys :
    ∀ (df : List (String × String)) (k : String),
      (k ∈ (generate_color_map df).map Prod.fst ↔ k ∈ df.map Prod.snd)
      ∧ ∀ ne, (k ∈ (generate_color_map_single_ne df ne).map Prod.fst ↔
          k ∈ (df.filter (fun p => p.1 == ne)).map Prod.snd) := by
  intro df k
  constructor
  · rw [mem_keys_generate_color_map]
    constructor
    · rintro ⟨ne, _, hch⟩
      have := mem_sortedUnique.mp hch
      obtain ⟨p, hp, rfl⟩ := List.mem_map.mp this
      exact List.mem_map_of_mem Prod.snd (List.mem_filter.mp hp).1
    · intro hk
      obtain ⟨p, hp, rfl⟩ := List.mem_map.mp hk
      refine ⟨p.1, ?_, ?_⟩
      · exact mem_sortedUnique.mpr (List.mem_map_of_mem Prod.fst hp)
      · refine mem_sortedUnique.mpr ?_
        refine List.mem_map_of_mem Prod.snd ?_
        exact List.mem_filter.mpr ⟨hp, by simp⟩
  · intro ne
    unfold generate_color_map_single_ne
    rw [mem_keys_foldl_insert
      (fun i => colorHex (hls_to_rgb (FIXED_HUES.getD (i % FIXED_HUES.length) ⟨0, 1⟩)
        ⟨60, 100⟩ ⟨85, 100⟩)), List.enum_map_snd]
    simp [mem_sortedUnique, childrenOf]

end CpuDashboard
